import Mathlib

/-!
Verification development for the DCA crypto bot.

Shallow embedding of the decision engine found in
`src/strategies/dca_strategy.py`, the RSI indicator in
`src/utils/indicators.py`, and the exchange boundary in
`src/utils/binance_client.py`.  Quote-currency amounts, prices and RSI
values are modelled as rationals; dates as natural-number day indices.
-/

namespace BotCrypto

/-! ### Configuration constants (src/config.py, DCA_SETTINGS / BINANCE_CONFIG) -/

/-- DCA_SETTINGS max_daily_buy: maximum quote amount spent per day. -/
def max_daily_buy : ℚ := 40

/-- DCA_SETTINGS min_trade_amount: minimum quote amount per trade. -/
def min_trade_amount : ℚ := 10

/-- DCA_SETTINGS rsi_levels, as the ascending association list the code
iterates over (the Python dict keys are sorted before iteration). -/
def rsi_levels : List (ℚ × ℚ) := [(30, 40), (40, 25), (50, 15)]

/-- BINANCE_CONFIG max_retries. -/
def max_retries : ℕ := 3

/-- BINANCE_CONFIG retry_delay, in seconds. -/
def retry_delay : ℕ := 1

/-! ### IndicatorEngine (src/utils/indicators.py, calculate_rsi) -/

/-- Successive price differences, as in np.diff(prices). -/
def price_deltas : List ℚ → List ℚ
  | a :: b :: rest => (b - a) :: price_deltas (b :: rest)
  | _ => []

/-- Gains series: np.where(deltas > 0, deltas, 0). -/
def gains_of (ds : List ℚ) : List ℚ :=
  ds.map (fun d => if 0 < d then d else 0)

/-- Losses series: np.where(deltas < 0, -deltas, 0). -/
def losses_of (ds : List ℚ) : List ℚ :=
  ds.map (fun d => if d < 0 then -d else 0)

/-- Wilder smoothing: seed with the simple mean of the first `period`
entries, then fold `avg = (avg*(period-1) + x)/period` over the rest. -/
def wilder_avg (period : ℕ) (xs : List ℚ) : ℚ :=
  (xs.drop period).foldl
    (fun avg x => (avg * ((period : ℚ) - 1) + x) / period)
    ((xs.take period).sum / period)

/-- Python round(x, 2). -/
def roundTo2 (x : ℚ) : ℚ := (round (x * 100) : ℤ) / 100

/-- calculate_rsi(prices, period): neutral 50 on short input; 100 when the
smoothed average loss is exactly zero; otherwise the rounded RSI formula. -/
def calculate_rsi (prices : List ℚ) (period : ℕ) : ℚ :=
  if prices.length < period + 1 then 50
  else if wilder_avg period (losses_of (price_deltas prices)) = 0 then 100
  else
    roundTo2 (100 - 100 /
      (1 + wilder_avg period (gains_of (price_deltas prices)) /
        wilder_avg period (losses_of (price_deltas prices))))

/-! ### Tier lookup (src/strategies/dca_strategy.py, _get_buy_amount) -/

/-- _get_buy_amount: walk the thresholds in ascending order and return the
amount of the first threshold with `rsi < threshold`; 0 when none. -/
def get_buy_amount (levels : List (ℚ × ℚ)) (rsi : ℚ) : ℚ :=
  match levels with
  | [] => 0
  | (t, a) :: rest => if rsi < t then a else get_buy_amount rest rsi

/-! ### Data model (spec §3; src/strategies/dca_strategy.py) -/

/-- A persisted Trade record (trade dict built in _execute_buy); the
timestamp is modelled by its day index `date`. -/
structure Trade where
  date : ℕ
  coin : String
  amount : ℚ
  price : ℚ
  quantity : ℚ
  rsi : ℚ
  dry_run : Bool
deriving DecidableEq

/-- In-memory strategy state (daily_spent, last_buy_date, trades_history). -/
structure StratState where
  daily_spent : ℚ
  last_buy_date : Option ℕ
  trades_history : List Trade
deriving DecidableEq

/-- A transient Opportunity produced by _check_coin. -/
structure Opp where
  coin : String
  price : ℚ
  rsi : ℚ
  amount : ℚ
deriving DecidableEq

/-! ### TradeLedger (src/strategies/dca_strategy.py, _load_history / _save_history) -/

/-- _load_history: rebuild the state from the stored trade list, summing
the amounts of today's trades into daily_spent. -/
def load_history (stored : List Trade) (today : ℕ) : StratState :=
  let spent := ((stored.filter (fun t => t.date = today)).map Trade.amount).sum
  { daily_spent := spent
    last_buy_date := if 0 < spent then some today else none
    trades_history := stored }

/-- _save_history: read-modify-write of the shared trades document —
replace only the dca_trades key, keep every other key. -/
def save_history (doc : String → Option (List Trade)) (trades : List Trade) :
    String → Option (List Trade) :=
  fun key => if key = "dca_trades" then some trades else doc key

/-- _reset_daily_counter: zero the counter when the stored last-buy date
exists and differs from today. -/
def reset_daily_counter (s : StratState) (today : ℕ) : StratState :=
  match s.last_buy_date with
  | some d =>
    if d ≠ today then { s with daily_spent := 0, last_buy_date := none } else s
  | none => s

/-! ### ExchangeGateway (src/utils/binance_client.py) -/

/-- TRADING_MODE. -/
inductive Mode
  | dry_run
  | testnet
  | live
deriving DecidableEq

/-- Order confirmation as far as _execute_buy consumes it. -/
structure Order where
  executedQty : ℚ
  dry_run : Bool
deriving DecidableEq

/-- place_buy_order: in dry_run mode synthesize a filled order from the
price and never touch the live order path; otherwise submit to the venue
(abstracted by `venue`, none = rejected/failed after retries).  The second
component records whether the real order-submission path was invoked. -/
def place_buy_order (mode : Mode) (price : ℚ) (amount_usd : ℚ)
    (venue : Option Order) : Option Order × Bool :=
  match mode with
  | .dry_run => (some { executedQty := amount_usd / price, dry_run := true }, false)
  | _ => (venue, true)

/-- Outcome of _execute_buy: reported success flag, in-memory state,
persisted document after the save attempt, and whether the live order
path was invoked. -/
structure ExecResult where
  success : Bool
  state : StratState
  file : String → Option (List Trade)
  liveCalled : Bool

/-- _execute_buy: place the order; on a falsy order report failure and
leave everything unchanged.  Otherwise build the Trade record, append it
to the in-memory history, attempt the ledger save (whose failure is
caught and logged, leaving the document unchanged: `writeOk = false`),
bump daily_spent and last_buy_date, and report success. -/
def execute_buy (mode : Mode) (venue : Option Order) (writeOk : Bool)
    (s : StratState) (doc : String → Option (List Trade))
    (coin : String) (amount price rsi : ℚ) (today : ℕ) : ExecResult :=
  match place_buy_order mode price amount venue with
  | (none, live) => { success := false, state := s, file := doc, liveCalled := live }
  | (some order, live) =>
    let trade : Trade :=
      { date := today, coin := coin, amount := amount, price := price
        quantity := order.executedQty, rsi := rsi
        dry_run := decide (mode = Mode.dry_run) }
    let hist := s.trades_history ++ [trade]
    { success := true
      state := { daily_spent := s.daily_spent + amount
                 last_buy_date := some today
                 trades_history := hist }
      file := if writeOk then save_history doc hist else doc
      liveCalled := live }

/-! ### DCADecisionEngine (src/strategies/dca_strategy.py, run_check) -/

/-- A successful purchase made by the EXECUTING walk, remembering the
originally proposed amount next to the executed (clamped) one. -/
structure Purchase where
  coin : String
  amount : ℚ
  proposed : ℚ
deriving DecidableEq

/-- Result of the EXECUTING walk over the ranked opportunity list. -/
structure WalkResult where
  purchases : List Purchase
  budget : ℚ
  state : StratState
  file : String → Option (List Trade)

/-- The EXECUTING walk (run_check, lines 279–321): stop when the remaining
budget drops below min_trade_amount; otherwise clamp the proposal to the
remaining budget and call _execute_buy; on success decrement the budget
and break (one purchase per cycle); on failure keep the budget and move
to the next proposal. -/
def execute_walk (mode : Mode) (venue : String → Option Order) (writeOk : Bool)
    (today : ℕ) :
    List Opp → ℚ → StratState → (String → Option (List Trade)) → WalkResult
  | [], b, s, doc => ⟨[], b, s, doc⟩
  | o :: opps, b, s, doc =>
    if b < min_trade_amount then ⟨[], b, s, doc⟩
    else if (execute_buy mode (venue o.coin) writeOk s doc o.coin (min o.amount b)
        o.price o.rsi today).success then
      ⟨[{ coin := o.coin, amount := min o.amount b, proposed := o.amount }],
        b - min o.amount b,
        (execute_buy mode (venue o.coin) writeOk s doc o.coin (min o.amount b)
          o.price o.rsi today).state,
        (execute_buy mode (venue o.coin) writeOk s doc o.coin (min o.amount b)
          o.price o.rsi today).file⟩
    else
      execute_walk mode venue writeOk today opps b
        (execute_buy mode (venue o.coin) writeOk s doc o.coin (min o.amount b)
          o.price o.rsi today).state
        (execute_buy mode (venue o.coin) writeOk s doc o.coin (min o.amount b)
          o.price o.rsi today).file

/-- RANKING (run_check, line 272): Python's stable sort ascending by rsi. -/
def rank_opportunities (l : List Opp) : List Opp :=
  l.mergeSort (fun a b => decide (a.rsi ≤ b.rsi))

/-- Observable side effects of one cycle: a candle fetch per checked coin
and an executed buy per successful purchase. -/
inductive Effect
  | fetch (coin : String)
  | buy (coin : String) (amount : ℚ)
deriving DecidableEq

/-- Result of one run_check cycle. -/
structure CheckResult where
  state : StratState
  file : String → Option (List Trade)
  effects : List Effect

/-- run_check: when enabled, reset the daily counter on date rollover;
return at once when the daily cap is already reached; otherwise evaluate
each configured coin (`check_coin` abstracts _check_coin, which fetches
candles and filters by min_trade_amount), rank the surviving
opportunities by rsi, and run the EXECUTING walk on the remaining
budget. -/
def run_check (enabled : Bool) (mode : Mode) (venue : String → Option Order)
    (writeOk : Bool) (check_coin : String → Option Opp) (coins : List String)
    (s : StratState) (doc : String → Option (List Trade)) (today : ℕ) :
    CheckResult :=
  if !enabled then ⟨s, doc, []⟩
  else
    let s1 := reset_daily_counter s today
    if max_daily_buy ≤ s1.daily_spent then ⟨s1, doc, []⟩
    else
      let remaining := max_daily_buy - s1.daily_spent
      let opps := coins.filterMap check_coin
      let ranked := rank_opportunities opps
      let w := execute_walk mode venue writeOk today ranked remaining s1 doc
      ⟨w.state, w.file,
        coins.map Effect.fetch ++ w.purchases.map (fun p => Effect.buy p.coin p.amount)⟩

/-- The daily-budget invariant of DailyBudgetState (spec §3). -/
def BudgetInv (s : StratState) : Prop :=
  0 ≤ s.daily_spent ∧ s.daily_spent ≤ max_daily_buy

/-! ### Retry wrapper (src/utils/binance_client.py, _retry_request) -/

/-- Outcome of _retry_request: the propagated result, the total time
spent sleeping between attempts, and the number of attempts made. -/
structure RetryResult (α : Type) where
  result : Except Unit α
  wait : ℕ
  attempts : ℕ

/-- The retry loop body: `fuel` iterations of the for-loop remain and the
next attempt is numbered `attempt` (0-based).  A transient failure on any
attempt but the last sleeps `delay * (attempt + 1)` and retries; the last
attempt's failure propagates. -/
def retry_aux {α : Type} (outcome : ℕ → Except Unit α) (delay : ℕ) :
    ℕ → ℕ → RetryResult α
  | _, 0 => ⟨Except.error (), 0, 0⟩
  | attempt, fuel + 1 =>
    match outcome attempt with
    | Except.ok a => ⟨Except.ok a, 0, 1⟩
    | Except.error () =>
      if fuel = 0 then ⟨Except.error (), 0, 1⟩
      else
        let r := retry_aux outcome delay (attempt + 1) fuel
        ⟨r.result, delay * (attempt + 1) + r.wait, r.attempts + 1⟩

/-- _retry_request: up to `maxR` attempts with linear backoff. -/
def retry_request {α : Type} (outcome : ℕ → Except Unit α)
    (maxR delay : ℕ) : RetryResult α :=
  retry_aux outcome delay 0 maxR

/-! ### Concrete fixtures -/

/-- Fresh strategy state. -/
def state0 : StratState := { daily_spent := 0, last_buy_date := none, trades_history := [] }

/-- Empty persisted document. -/
def doc0 : String → Option (List Trade) := fun _ => none

/-! ### Tier-lookup lemmas -/

lemma get_buy_amount_min (levels : List (ℚ × ℚ)) (r t a : ℚ)
    (hs : levels.Pairwise (fun p q => p.1 < q.1))
    (hmem : (t, a) ∈ levels) (hrt : r < t)
    (hmin : ∀ p ∈ levels, r < p.1 → t ≤ p.1) :
    get_buy_amount levels r = a := by
  induction levels with
  | nil => simp at hmem
  | cons hd tl ih =>
    obtain ⟨t0, a0⟩ := hd
    rw [List.pairwise_cons] at hs
    obtain ⟨hhd, hpw⟩ := hs
    rw [get_buy_amount]
    by_cases h0 : r < t0
    · simp only [if_pos h0]
      rcases List.mem_cons.mp hmem with heq | htl
      · injection heq with h1 h2
        exact h2.symm
      · exact absurd (hmin (t0, a0) (List.mem_cons_self _ _) h0)
          (not_le.mpr (hhd (t, a) htl))
    · simp only [if_neg h0]
      rcases List.mem_cons.mp hmem with heq | htl
      · injection heq with h1 h2
        exact absurd (h1 ▸ hrt) h0
      · exact ih hpw htl fun p hp hrp => hmin p (List.mem_cons_of_mem _ hp) hrp

lemma get_buy_amount_none (levels : List (ℚ × ℚ)) (r : ℚ)
    (hall : ∀ p ∈ levels, p.1 ≤ r) :
    get_buy_amount levels r = 0 := by
  induction levels with
  | nil => rfl
  | cons hd tl ih =>
    obtain ⟨t0, a0⟩ := hd
    rw [get_buy_amount,
      if_neg (not_lt.mpr (hall (t0, a0) (List.mem_cons_self _ _)))]
    exact ih fun p hp => hall p (List.mem_cons_of_mem _ hp)

/-- Claim C2: for every tier table with strictly increasing thresholds,
the lookup returns the amount of the smallest threshold strictly greater
than the RSI, and 0 when the RSI reaches every threshold; on the
configured table, RSI 28 ↦ 40, 45 ↦ 15, 55 ↦ 0. -/
theorem C2_tier_lookup (levels : List (ℚ × ℚ)) (r : ℚ)
    (hs : levels.Pairwise (fun p q => p.1 < q.1)) :
    (∀ t a, (t, a) ∈ levels → r < t →
        (∀ p ∈ levels, r < p.1 → t ≤ p.1) → get_buy_amount levels r = a) ∧
    ((∀ p ∈ levels, p.1 ≤ r) → get_buy_amount levels r = 0) ∧
    get_buy_amount rsi_levels 28 = 40 ∧ get_buy_amount rsi_levels 45 = 15 ∧
    get_buy_amount rsi_levels 55 = 0 :=
  ⟨fun t a hmem hrt hmin => get_buy_amount_min levels r t a hs hmem hrt hmin,
   fun hall => get_buy_amount_none levels r hall,
   by decide, by decide, by decide⟩

theorem C2_tier_lookup_witness : get_buy_amount rsi_levels 28 = 40 :=
  (C2_tier_lookup rsi_levels 28 (by decide)).1 30 40 (by decide) (by decide)
    (by decide)

/-- Claim C8: a ledger save replaces exactly the dca_trades
sub-collection of the shared document and leaves the value of every
other key unchanged. -/
theorem C8_save_frame (doc : String → Option (List Trade)) (trades : List Trade) :
    save_history doc trades "dca_trades" = some trades ∧
    ∀ key, key ≠ "dca_trades" → save_history doc trades key = doc key := by
  constructor
  · simp [save_history]
  · intro key hk
    simp [save_history, hk]

theorem C8_save_frame_witness :
    save_history (fun k => if k = "sniper_trades" then some [] else none) []
        "dca_trades" = some [] ∧
    save_history (fun k => if k = "sniper_trades" then some [] else none) []
        "sniper_trades" =
      (fun k => if k = "sniper_trades" then some ([] : List Trade) else none)
        "sniper_trades" :=
  ⟨(C8_save_frame _ []).1, (C8_save_frame _ []).2 "sniper_trades" (by decide)⟩

/-- Claim C9: in dry_run mode every completed buy records the dry_run
flag true and the live order-submission path is never invoked. -/
theorem C9_dry_run_flag (venue : Option Order) (writeOk : Bool) (s : StratState)
    (doc : String → Option (List Trade)) (coin : String)
    (amount price rsi : ℚ) (today : ℕ) :
    (execute_buy Mode.dry_run venue writeOk s doc coin amount price rsi today).liveCalled
        = false ∧
    (execute_buy Mode.dry_run venue writeOk s doc coin amount price rsi today).success
        = true ∧
    (execute_buy Mode.dry_run venue writeOk s doc coin amount price rsi today).state.trades_history
        = s.trades_history ++
          [{ date := today, coin := coin, amount := amount, price := price
             quantity := amount / price, rsi := rsi, dry_run := true }] := by
  simp [execute_buy, place_buy_order]

/-- Claim C4 (counterexample): an order that fills but whose ledger write
fails is still reported as a success with the persisted document
unchanged — the cycle silently proceeds rather than aborting. -/
theorem C4_counterexample :
    (execute_buy Mode.live (some { executedQty := 1, dry_run := false }) false
        state0 doc0 "BTC" 40 100 25 0).success = true ∧
    (execute_buy Mode.live (some { executedQty := 1, dry_run := false }) false
        state0 doc0 "BTC" 40 100 25 0).file "dca_trades" = none ∧
    (execute_buy Mode.live (some { executedQty := 1, dry_run := false }) false
        state0 doc0 "BTC" 40 100 25 0).state.trades_history ≠ [] := by
  refine ⟨rfl, rfl, ?_⟩
  simp [execute_buy, place_buy_order, state0, doc0]

/-- Claim C4 (amended): the ledger save is attempted synchronously before
success is reported, but a write failure is caught and swallowed: the
persisted document stays unchanged while the trade is still reported as
a success exactly when the order filled; when the write succeeds the
appended history is persisted before success is reported. -/
theorem C4_persistence (mode : Mode) (venue : Option Order) (s : StratState)
    (doc : String → Option (List Trade)) (coin : String)
    (amount price rsi : ℚ) (today : ℕ) :
    (execute_buy mode venue false s doc coin amount price rsi today).file = doc ∧
    ((execute_buy mode venue false s doc coin amount price rsi today).success = true ↔
      (place_buy_order mode price amount venue).1.isSome = true) ∧
    ((execute_buy mode venue true s doc coin amount price rsi today).success = true →
      (execute_buy mode venue true s doc coin amount price rsi today).file =
        save_history doc
          (execute_buy mode venue true s doc coin amount price rsi
            today).state.trades_history) := by
  rcases h : place_buy_order mode price amount venue with ⟨ord, live⟩
  cases ord <;> simp [execute_buy, h]

theorem C4_persistence_witness :
    (execute_buy Mode.live (some { executedQty := 1, dry_run := false }) true
        state0 doc0 "BTC" 40 100 25 0).file =
      save_history doc0
        (execute_buy Mode.live (some { executedQty := 1, dry_run := false }) true
          state0 doc0 "BTC" 40 100 25 0).state.trades_history :=
  (C4_persistence Mode.live (some { executedQty := 1, dry_run := false })
    state0 doc0 "BTC" 40 100 25 0).2.2 rfl

/-! ### RSI lemmas -/

lemma price_deltas_pos {prices : List ℚ} (h : List.Chain' (· < ·) prices) :
    ∀ d ∈ price_deltas prices, 0 < d := by
  induction prices with
  | nil => simp [price_deltas]
  | cons a tl ih =>
    cases tl with
    | nil => simp [price_deltas]
    | cons b rest =>
      rw [List.chain'_cons] at h
      intro d hd
      rw [price_deltas] at hd
      rcases List.mem_cons.mp hd with rfl | hmem
      · linarith [h.1]
      · exact ih h.2 d hmem

lemma foldl_wilder_zero (p : ℕ) (xs : List ℚ) (hx : ∀ x ∈ xs, x = 0) :
    xs.foldl (fun avg x => (avg * ((p : ℚ) - 1) + x) / p) 0 = 0 := by
  induction xs with
  | nil => rfl
  | cons y ys ih =>
    have hy : y = 0 := hx y (List.mem_cons_self _ _)
    rw [List.foldl_cons]
    have h0 : ((0 : ℚ) * ((p : ℚ) - 1) + y) / p = 0 := by
      rw [hy, zero_mul, zero_add, zero_div]
    rw [h0]
    exact ih fun x hxx => hx x (List.mem_cons_of_mem _ hxx)

lemma wilder_avg_zero (p : ℕ) (xs : List ℚ) (hx : ∀ x ∈ xs, x = 0) :
    wilder_avg p xs = 0 := by
  rw [wilder_avg]
  have hseed : (xs.take p).sum = 0 :=
    List.sum_eq_zero fun x hxx => hx x (List.take_subset p xs hxx)
  rw [hseed, zero_div]
  exact foldl_wilder_zero p (xs.drop p) fun x hxx =>
    hx x (List.drop_subset p xs hxx)

/-- Claim C6: whenever the Wilder-smoothed average loss is exactly zero —
in particular for every strictly increasing price series of length
greater than the period — calculate_rsi returns exactly 100. -/
theorem C6_rsi_hundred (prices : List ℚ) (period : ℕ)
    (hlen : period + 1 ≤ prices.length) :
    (wilder_avg period (losses_of (price_deltas prices)) = 0 →
      calculate_rsi prices period = 100) ∧
    (List.Chain' (· < ·) prices → calculate_rsi prices period = 100) := by
  have hnot : ¬ prices.length < period + 1 := not_lt.mpr hlen
  have key : wilder_avg period (losses_of (price_deltas prices)) = 0 →
      calculate_rsi prices period = 100 := fun hz => by
    rw [calculate_rsi, if_neg hnot, if_pos hz]
  refine ⟨key, fun hchain => key ?_⟩
  refine wilder_avg_zero _ _ fun x hxx => ?_
  obtain ⟨d, hd, rfl⟩ := List.mem_map.mp hxx
  have hdpos := price_deltas_pos hchain d hd
  rw [if_neg (not_lt.mpr hdpos.le)]

theorem C6_rsi_hundred_witness : calculate_rsi [1, 2, 3] 1 = 100 :=
  (C6_rsi_hundred [1, 2, 3] 1 (by norm_num)).2
    (by simp [List.chain'_cons, List.chain'_singleton]; norm_num)

/-! ### Retry-wrapper lemmas -/

lemma retry_aux_attempts_le {α : Type} (outcome : ℕ → Except Unit α) (delay : ℕ)
    (fuel attempt : ℕ) : (retry_aux outcome delay attempt fuel).attempts ≤ fuel := by
  induction fuel generalizing attempt with
  | zero => rw [retry_aux]
  | succ f ih =>
    rw [retry_aux]
    cases houtcome : outcome attempt with
    | ok a => exact Nat.succ_le_succ (Nat.zero_le f)
    | error u =>
      cases u
      by_cases hf : f = 0
      · simp [hf]
      · simp only [if_neg hf]
        exact Nat.succ_le_succ (ih (attempt + 1))

lemma retry_aux_all_fail {α : Type} (outcome : ℕ → Except Unit α) (delay : ℕ)
    (fuel attempt : ℕ)
    (h : ∀ k, k < fuel → outcome (attempt + k) = Except.error ()) :
    (retry_aux outcome delay attempt fuel).result = Except.error () := by
  induction fuel generalizing attempt with
  | zero => rw [retry_aux]
  | succ f ih =>
    have h0 : outcome attempt = Except.error () := by
      have := h 0 (Nat.succ_pos f)
      simpa using this
    rw [retry_aux, h0]
    by_cases hf : f = 0
    · simp [hf]
    · simp only [if_neg hf]
      refine ih (attempt + 1) fun k hk => ?_
      have h' := h (k + 1) (by omega)
      rwa [show attempt + (k + 1) = attempt + 1 + k by omega] at h'

lemma retry_aux_ok {α : Type} (outcome : ℕ → Except Unit α) (delay : ℕ) (a : α)
    (n : ℕ) :
    ∀ (fuel attempt : ℕ), n < fuel →
      (∀ k, k < n → outcome (attempt + k) = Except.error ()) →
      outcome (attempt + n) = Except.ok a →
      retry_aux outcome delay attempt fuel =
        ⟨Except.ok a, (Finset.range n).sum (fun i => delay * (attempt + i + 1)),
          n + 1⟩ := by
  induction n with
  | zero =>
    intro fuel attempt hfuel _ hok
    cases fuel with
    | zero => omega
    | succ f =>
      rw [retry_aux]
      simp only [Nat.add_zero] at hok
      rw [hok]
      simp
  | succ n ih =>
    intro fuel attempt hfuel hfail hok
    cases fuel with
    | zero => omega
    | succ f =>
      have h0 : outcome attempt = Except.error () := by
        have := hfail 0 (Nat.succ_pos n)
        simpa using this
      have hf : f ≠ 0 := by omega
      rw [retry_aux, h0]
      simp only [if_neg hf]
      have hrec := ih f (attempt + 1) (by omega)
        (fun k hk => by
          have h' := hfail (k + 1) (by omega)
          rwa [show attempt + (k + 1) = attempt + 1 + k by omega] at h')
        (by rwa [show attempt + 1 + n = attempt + (n + 1) by omega])
      rw [hrec]
      refine congrArg₂ (RetryResult.mk (Except.ok a)) ?_ rfl
      rw [Finset.sum_range_succ']
      have : ∀ i, delay * (attempt + 1 + i + 1) = delay * (attempt + (i + 1) + 1) := by
        intro i
        ring_nf
      simp only [this]
      ring

/-- Claim C5: _retry_request makes at most maxR attempts; after maxR
transient failures the failure propagates; when the first n attempts fail
transiently and attempt n succeeds (n < maxR), the success result is
returned after a total linear-backoff wait of delay*(1+2+...+n); in
particular two failures then success gives total wait delay*(1+2). -/
theorem C5_retry_backoff {α : Type} (outcome : ℕ → Except Unit α)
    (maxR delay : ℕ) :
    (retry_request outcome maxR delay).attempts ≤ maxR ∧
    ((∀ k, k < maxR → outcome k = Except.error ()) →
      (retry_request outcome maxR delay).result = Except.error ()) ∧
    (∀ (a : α) (n : ℕ), n < maxR →
      (∀ k, k < n → outcome k = Except.error ()) → outcome n = Except.ok a →
      retry_request outcome maxR delay =
        ⟨Except.ok a, (Finset.range n).sum (fun i => delay * (i + 1)), n + 1⟩) ∧
    (∀ (a : α), 3 ≤ maxR → outcome 0 = Except.error () →
      outcome 1 = Except.error () → outcome 2 = Except.ok a →
      retry_request outcome maxR delay = ⟨Except.ok a, delay * (1 + 2), 3⟩) := by
  have hok : ∀ (a : α) (n : ℕ), n < maxR →
      (∀ k, k < n → outcome k = Except.error ()) → outcome n = Except.ok a →
      retry_request outcome maxR delay =
        ⟨Except.ok a, (Finset.range n).sum (fun i => delay * (i + 1)), n + 1⟩ := by
    intro a n hn hfail hsucc
    rw [retry_request, retry_aux_ok outcome delay a n maxR 0 hn
      (fun k hk => by simpa using hfail k hk) (by simpa using hsucc)]
    simp [Nat.zero_add]
  refine ⟨retry_aux_attempts_le outcome delay maxR 0, ?_, hok, ?_⟩
  · intro hall
    exact retry_aux_all_fail outcome delay maxR 0 fun k hk => by
      simpa using hall k hk
  · intro a h3 h0 h1 h2
    have := hok a 2 (by omega)
      (fun k hk => by interval_cases k <;> assumption) h2
    rw [this]
    refine congrArg₂ (RetryResult.mk (Except.ok a)) ?_ rfl
    rw [Finset.sum_range_succ, Finset.sum_range_succ, Finset.sum_range_zero]
    ring

theorem C5_retry_backoff_witness :
    retry_request
        (fun k => if k < 2 then (Except.error () : Except Unit ℕ) else Except.ok 7)
        3 1 = ⟨Except.ok 7, 1 * (1 + 2), 3⟩ :=
  (C5_retry_backoff _ 3 1).2.2.2 7 (by norm_num) rfl rfl rfl

/-! ### Ranking -/

/-- An oversold BTC opportunity (RSI 25, tier amount 40). -/
def opp_btc : Opp := { coin := "BTC", price := 100, rsi := 25, amount := 40 }

/-- A less-oversold ETH opportunity (RSI 35, tier amount 25). -/
def opp_eth : Opp := { coin := "ETH", price := 100, rsi := 35, amount := 25 }

lemma rank_le_trans : ∀ x y z : Opp,
    decide (x.rsi ≤ y.rsi) → decide (y.rsi ≤ z.rsi) → decide (x.rsi ≤ z.rsi) := by
  intro x y z hxy hyz
  simp only [decide_eq_true_eq] at hxy hyz ⊢
  exact le_trans hxy hyz

lemma rank_le_total : ∀ x y : Opp,
    decide (x.rsi ≤ y.rsi) || decide (y.rsi ≤ x.rsi) := by
  intro x y
  rcases le_total x.rsi y.rsi with h | h <;> simp [h]

/-- Claim C7: ranking is a stable ascending sort by RSI — the result is a
permutation of the surviving opportunities, sorted by rsi, equal-rsi
opportunities keep their original enumeration order, and an RSI-25
opportunity is placed before an RSI-35 one. -/
theorem C7_ranking_stable_sort (l : List Opp) :
    (rank_opportunities l).Perm l ∧
    (rank_opportunities l).Pairwise (fun a b => a.rsi ≤ b.rsi) ∧
    (∀ a b : Opp, [a, b].Sublist l → a.rsi = b.rsi →
      [a, b].Sublist (rank_opportunities l)) ∧
    (∀ a b : Opp, a.rsi = 25 → b.rsi = 35 →
      rank_opportunities [b, a] = [a, b]) := by
  refine ⟨List.mergeSort_perm l _, ?_, ?_, ?_⟩
  · exact (List.sorted_mergeSort rank_le_trans rank_le_total l).imp
      fun h => of_decide_eq_true h
  · intro a b hsub heq
    exact List.sublist_mergeSort rank_le_trans rank_le_total
      (List.pairwise_pair.mpr (by simp [heq])) hsub
  · intro a b ha hb
    rw [rank_opportunities, List.mergeSort]
    simp [List.splitInTwo, List.splitAt, List.splitAt.go, List.merge, ha, hb]
    intro h
    exact absurd h (by norm_num)

theorem C7_ranking_stable_sort_witness :
    rank_opportunities [opp_eth, opp_btc] = [opp_btc, opp_eth] :=
  (C7_ranking_stable_sort [opp_eth, opp_btc]).2.2.2 opp_btc opp_eth rfl rfl

/-! ### EXECUTING-walk lemmas -/

lemma execute_buy_fail_frame (mode : Mode) (venue : Option Order) (writeOk : Bool)
    (s : StratState) (doc : String → Option (List Trade)) (coin : String)
    (amount price rsi : ℚ) (today : ℕ)
    (h : (execute_buy mode venue writeOk s doc coin amount price rsi today).success
      = false) :
    (execute_buy mode venue writeOk s doc coin amount price rsi today).state = s ∧
    (execute_buy mode venue writeOk s doc coin amount price rsi today).file = doc := by
  rcases hpo : place_buy_order mode price amount venue with ⟨ord, live⟩
  cases ord <;> simp [execute_buy, hpo] at h ⊢

lemma execute_buy_success_spent (mode : Mode) (venue : Option Order) (writeOk : Bool)
    (s : StratState) (doc : String → Option (List Trade)) (coin : String)
    (amount price rsi : ℚ) (today : ℕ) :
    (execute_buy mode venue writeOk s doc coin amount price rsi today).success = true →
    (execute_buy mode venue writeOk s doc coin amount price rsi today).state.daily_spent
      = s.daily_spent + amount := by
  rcases hpo : place_buy_order mode price amount venue with ⟨ord, live⟩
  cases ord <;> simp [execute_buy, hpo]

lemma execute_walk_props (mode : Mode) (venue : String → Option Order)
    (writeOk : Bool) (today : ℕ) (l : List Opp) :
    ∀ (b : ℚ) (s : StratState) (doc : String → Option (List Trade)),
      (execute_walk mode venue writeOk today l b s doc).purchases.length ≤ 1 ∧
      (∀ p ∈ (execute_walk mode venue writeOk today l b s doc).purchases,
        p.amount = min p.proposed b ∧ ∃ o ∈ l, o.amount = p.proposed) ∧
      (execute_walk mode venue writeOk today l b s doc).state.daily_spent =
        s.daily_spent +
          ((execute_walk mode venue writeOk today l b s doc).purchases.map
            Purchase.amount).sum := by
  induction l with
  | nil =>
    intro b s doc
    rw [execute_walk]
    simp
  | cons o opps ih =>
    intro b s doc
    rw [execute_walk]
    by_cases hb : b < min_trade_amount
    · rw [if_pos hb]
      simp
    · rw [if_neg hb]
      by_cases hs : (execute_buy mode (venue o.coin) writeOk s doc o.coin
          (min o.amount b) o.price o.rsi today).success = true
      · rw [if_pos hs]
        refine ⟨by simp, ?_, ?_⟩
        · intro p hp
          simp only [List.mem_singleton] at hp
          subst hp
          exact ⟨rfl, o, List.mem_cons_self _ _, rfl⟩
        · simpa using execute_buy_success_spent mode (venue o.coin) writeOk s doc
            o.coin (min o.amount b) o.price o.rsi today hs
      · rw [if_neg hs]
        obtain ⟨hstate, hfile⟩ := execute_buy_fail_frame mode (venue o.coin) writeOk
          s doc o.coin (min o.amount b) o.price o.rsi today
          (Bool.not_eq_true _ ▸ hs)
        rw [hstate, hfile]
        obtain ⟨h1, h2, h3⟩ := ih b s doc
        exact ⟨h1, fun p hp =>
          ⟨(h2 p hp).1, (h2 p hp).2.elim fun o' ho' =>
            ⟨o', List.mem_cons_of_mem _ ho'.1, ho'.2⟩⟩, h3⟩

lemma execute_walk_budget_low (mode : Mode) (venue : String → Option Order)
    (writeOk : Bool) (today : ℕ) (l : List Opp) (b : ℚ) (s : StratState)
    (doc : String → Option (List Trade)) (hb : b < min_trade_amount) :
    execute_walk mode venue writeOk today l b s doc = ⟨[], b, s, doc⟩ := by
  cases l with
  | nil => rw [execute_walk]
  | cons o opps => rw [execute_walk, if_pos hb]

/-- Claim C1: in the EXECUTING walk every executed amount is the proposal
clamped to the remaining budget, the walk stops before executing when the
remaining budget is below min_trade_amount, at most one purchase succeeds
per cycle, and in the concrete cap-40 scenario with ranked proposals 40
and 25 exactly one buy of amount 40 executes and the remaining budget is
0 afterwards. -/
theorem C1_executing_walk (mode : Mode) (venue : String → Option Order)
    (writeOk : Bool) (today : ℕ) (l : List Opp) (b : ℚ) (s : StratState)
    (doc : String → Option (List Trade)) (_hb : 0 ≤ b) :
    (execute_walk mode venue writeOk today l b s doc).purchases.length ≤ 1 ∧
    (∀ p ∈ (execute_walk mode venue writeOk today l b s doc).purchases,
      p.amount = min p.proposed b) ∧
    (b < min_trade_amount →
      execute_walk mode venue writeOk today l b s doc = ⟨[], b, s, doc⟩) ∧
    ((execute_walk Mode.dry_run (fun _ => none) true 0 [opp_btc, opp_eth] 40
        state0 doc0).purchases.map Purchase.amount = [40] ∧
      (execute_walk Mode.dry_run (fun _ => none) true 0 [opp_btc, opp_eth] 40
        state0 doc0).budget = 0) := by
  obtain ⟨h1, h2, h3⟩ := execute_walk_props mode venue writeOk today l b s doc
  refine ⟨h1, fun p hp => (h2 p hp).1,
    execute_walk_budget_low mode venue writeOk today l b s doc, ?_, ?_⟩
  · rw [execute_walk]
    norm_num [execute_buy, place_buy_order, opp_btc, min_trade_amount]
  · rw [execute_walk]
    norm_num [execute_buy, place_buy_order, opp_btc, min_trade_amount]

theorem C1_executing_walk_witness :
    (execute_walk Mode.dry_run (fun _ => none) true 0 [opp_btc, opp_eth] 40
        state0 doc0).purchases.map Purchase.amount = [40] ∧
    (execute_walk Mode.dry_run (fun _ => none) true 0 [opp_btc, opp_eth] 40
        state0 doc0).budget = 0 :=
  (C1_executing_walk Mode.dry_run (fun _ => none) true 0 [opp_btc, opp_eth] 40
    state0 doc0 (by norm_num)).2.2.2

/-! ### Cycle-level claims -/

/-- State that has already spent exactly the daily cap today. -/
def state_capped : StratState :=
  { daily_spent := 40, last_buy_date := some 0, trades_history := [] }

/-- Claim C10: when, after the daily rollover check, spentToday has
reached the daily cap, run_check returns at once: no coin is checked, no
effect is produced, and state and persisted document are exactly the
post-rollover ones. -/
theorem C10_daily_cap_early_return (mode : Mode) (venue : String → Option Order)
    (writeOk : Bool) (check_coin : String → Option Opp) (coins : List String)
    (s : StratState) (doc : String → Option (List Trade)) (today : ℕ)
    (h : max_daily_buy ≤ (reset_daily_counter s today).daily_spent) :
    run_check true mode venue writeOk check_coin coins s doc today =
      ⟨reset_daily_counter s today, doc, []⟩ := by
  rw [run_check]
  simp only [Bool.not_true, Bool.false_eq_true, if_false]
  rw [if_pos h]

theorem C10_daily_cap_early_return_witness :
    run_check true Mode.dry_run (fun _ => none) true (fun _ => none)
        ["BTC", "ETH"] state_capped doc0 0 =
      ⟨reset_daily_counter state_capped 0, doc0, []⟩ :=
  C10_daily_cap_early_return Mode.dry_run (fun _ => none) true (fun _ => none)
    ["BTC", "ETH"] state_capped doc0 0
    (by norm_num [reset_daily_counter, state_capped, max_daily_buy])

/-- Claim C3: the daily-budget invariant 0 ≤ spentToday ≤ max_daily_buy is
established by the history load whenever the persisted amounts are
non-negative and today's persisted spend is within the cap, and is
preserved by the daily reset and by a whole run_check cycle whose
surviving opportunities carry non-negative amounts. -/
theorem C3_budget_invariant :
    (∀ (stored : List Trade) (today : ℕ),
      (∀ t ∈ stored, 0 ≤ t.amount) →
      ((stored.filter (fun t => t.date = today)).map Trade.amount).sum ≤ max_daily_buy →
      BudgetInv (load_history stored today)) ∧
    (∀ (s : StratState) (today : ℕ), BudgetInv s →
      BudgetInv (reset_daily_counter s today)) ∧
    (∀ (enabled : Bool) (mode : Mode) (venue : String → Option Order)
      (writeOk : Bool) (check_coin : String → Option Opp) (coins : List String)
      (s : StratState) (doc : String → Option (List Trade)) (today : ℕ),
      BudgetInv s →
      (∀ c o, check_coin c = some o → 0 ≤ o.amount) →
      BudgetInv
        (run_check enabled mode venue writeOk check_coin coins s doc today).state) := by
  have hreset : ∀ (s : StratState) (today : ℕ), BudgetInv s →
      BudgetInv (reset_daily_counter s today) := by
    intro s today hs
    rw [reset_daily_counter]
    rcases s.last_buy_date with _ | d
    · exact hs
    · dsimp only
      by_cases hd : d ≠ today
      · rw [if_pos hd]
        exact ⟨le_refl 0, by norm_num [max_daily_buy]⟩
      · rw [if_neg hd]
        exact hs
  refine ⟨?_, hreset, ?_⟩
  · intro stored today hnn hcap
    refine ⟨List.sum_nonneg fun x hx => ?_, hcap⟩
    obtain ⟨t, ht, rfl⟩ := List.mem_map.mp hx
    exact hnn t (List.mem_of_mem_filter ht)
  · intro enabled mode venue writeOk check_coin coins s doc today hs hcc
    rw [run_check]
    cases enabled with
    | false => exact hs
    | true =>
      simp only [Bool.not_true, Bool.false_eq_true, if_false]
      have hs1 := hreset s today hs
      by_cases hcap : max_daily_buy ≤ (reset_daily_counter s today).daily_spent
      · rw [if_pos hcap]
        exact hs1
      · rw [if_neg hcap]
        have hrem : 0 ≤ max_daily_buy - (reset_daily_counter s today).daily_spent := by
          linarith [not_le.mp hcap]
        obtain ⟨hlen, hmem, hspent⟩ := execute_walk_props mode venue writeOk today
          (rank_opportunities (coins.filterMap check_coin))
          (max_daily_buy - (reset_daily_counter s today).daily_spent)
          (reset_daily_counter s today) doc
        set w := execute_walk mode venue writeOk today
          (rank_opportunities (coins.filterMap check_coin))
          (max_daily_buy - (reset_daily_counter s today).daily_spent)
          (reset_daily_counter s today) doc with hw
        have hamount : ∀ p ∈ w.purchases,
            0 ≤ p.amount ∧
              p.amount ≤ max_daily_buy - (reset_daily_counter s today).daily_spent := by
          intro p hp
          obtain ⟨hclamp, o, ho, hprop⟩ := hmem p hp
          have homem : o ∈ coins.filterMap check_coin :=
            (List.mergeSort_perm _ _).subset ho
          obtain ⟨c, _, hco⟩ := List.mem_filterMap.mp homem
          have hoa : 0 ≤ o.amount := hcc c o hco
          constructor
          · rw [hclamp]
            exact le_min (hprop ▸ hoa) hrem
          · rw [hclamp]
            exact min_le_right _ _
        have hsum : 0 ≤ (w.purchases.map Purchase.amount).sum ∧
            (w.purchases.map Purchase.amount).sum ≤
              max_daily_buy - (reset_daily_counter s today).daily_spent := by
          rcases hp : w.purchases with _ | ⟨p, rest⟩
          · simp
            linarith
          · have hrest : rest.length = 0 := by
              have h := hlen
              rw [hp, List.length_cons] at h
              omega
            have : rest = [] := List.length_eq_zero.mp hrest
            subst this
            simp only [List.map_cons, List.map_nil, List.sum_cons, List.sum_nil,
              add_zero]
            exact hamount p (hp ▸ List.mem_cons_self _ _)
        constructor
        · rw [hspent]
          have := hs1.1
          linarith [hsum.1]
        · rw [hspent]
          linarith [hsum.2]

theorem C3_budget_invariant_witness :
    BudgetInv (load_history [] 0) ∧
    BudgetInv (reset_daily_counter state_capped 1) ∧
    BudgetInv (run_check true Mode.dry_run (fun _ => none) true (fun _ => none)
      ["BTC", "ETH"] state0 doc0 0).state :=
  ⟨C3_budget_invariant.1 [] 0 (by simp) (by norm_num [max_daily_buy]),
   C3_budget_invariant.2.1 state_capped 1
     (by exact ⟨by norm_num [state_capped], by norm_num [state_capped, max_daily_buy]⟩),
   C3_budget_invariant.2.2 true Mode.dry_run (fun _ => none) true (fun _ => none)
     ["BTC", "ETH"] state0 doc0 0
     (by exact ⟨le_refl 0, by norm_num [state0, max_daily_buy]⟩)
     (by intro c o h; simp at h)⟩

end BotCrypto
